import Mathlib

/-!
Shallow embedding of the turn processor in
`packages/opencode/src/session/processor.ts` (namespace `SessionProcessor`),
together with the stream-idle-timeout error model pinned by
`packages/opencode/test/session/stream-idle-timeout.test.ts`.

Conventions of the embedding:
* machine timestamps (`Date.now()`) are `Nat` parameters threaded explicitly;
* serialized tool inputs (`JSON.stringify(...)`) are modelled as the
  serialized `String` itself, compared with string equality;
* the mutable `Record`/`Map` objects of the source are association lists;
* calls to the external `Session.updatePart` collaborator are recorded in a
  `persisted` log where a claim needs them.
-/

namespace SessionProcessor

/-- `DOOM_LOOP_THRESHOLD` from processor.ts line 20. -/
def DOOM_LOOP_THRESHOLD : Nat := 3

/-- `FLUSH_INTERVAL` (ms) from processor.ts line 21. -/
def FLUSH_INTERVAL : Nat := 50

/-- The tool part state machine of `MessageV2.ToolPart.state`
(`pending → running → completed | error`).  Every state carries the
serialized `input`; times are the `time.start` / `time.end` stamps. -/
inductive ToolState where
  | pending (input : String) (raw : String)
  | running (input : String) (start : Nat)
  | completed (input : String) (output : String) (title : String) (start : Nat) (fin : Nat)
  | error (input : String) (err : String) (start : Nat) (fin : Nat)
deriving DecidableEq

/-- `state.status` as the string tag used by the source. -/
def ToolState.status : ToolState → String
  | .pending .. => "pending"
  | .running .. => "running"
  | .completed .. => "completed"
  | .error .. => "error"

/-- `JSON.stringify(state.input)` — the serialized input every state carries. -/
def ToolState.input : ToolState → String
  | .pending i _ => i
  | .running i _ => i
  | .completed i _ _ _ _ => i
  | .error i _ _ _ => i

/-- The `Part` tagged union (`MessageV2.Part`): `text`, `reasoning`, `tool`,
`step-start`, `step-finish`, `patch`.  Only the fields the processor reads or
writes are modelled. -/
inductive Part where
  | text (id : String) (body : String) (timeStart : Nat) (timeEnd : Option Nat)
  | reasoning (id : String) (body : String) (timeStart : Nat) (timeEnd : Option Nat)
  | tool (id : String) (tool : String) (callID : String) (state : ToolState)
  | stepStart (id : String) (snapshot : String)
  | stepFinish (id : String) (tokens : Nat) (cost : Int)
  | patch (id : String) (hash : String) (files : List String)
deriving DecidableEq

/-- Is this part a tool part whose ledger state is `running`? -/
def Part.isRunningTool : Part → Bool
  | .tool _ _ _ (.running ..) => true
  | _ => false

/-- A stream-terminal error as classified by the catch block of `process`.
`idleTimeout ms` is `StreamIdleTimeoutError(ms)`; `other r m` is any other
error `m` carrying its `SessionRetry.retryable` classification `r`. -/
inductive StreamError where
  | idleTimeout (ms : Nat)
  | other (retryMsg : Option String) (msg : String)
deriving DecidableEq

/-- The message of `StreamIdleTimeoutError`, asserted verbatim by
test/session/stream-idle-timeout.test.ts line 12. -/
def idleTimeoutMessage (ms : Nat) : String :=
  "Stream idle timeout: no data received for " ++ toString ms ++ "ms"

/-- Modelled from the spec: `SessionRetry.retryable` lives in
src/session/retry.ts, which is not among the provided sources; only its
behaviour on idle timeouts is pinned by
test/session/stream-idle-timeout.test.ts, which asserts that a
`StreamIdleTimeoutError` converts to a retryable `APIError` whose retry
message contains the idle-timeout text.  Other errors carry their own
classification as data in the `other` constructor. -/
def retryable : StreamError → Option String
  | .idleTimeout ms => some (idleTimeoutMessage ms)
  | .other r _ => r

/-- `MessageV2.Assistant` fields the processor mutates:
`finish`, accumulating `cost`, `tokens`, optional terminal `error`,
`time.completed`. -/
structure AssistantMessage where
  finish : Option String
  cost : Int
  tokens : Nat
  error : Option StreamError
  timeCompleted : Option Nat
deriving DecidableEq

/-- The usage numbers `Session.getUsage` returns for one `finish-step`
event (external collaborator; only its output shape matters here). -/
structure Usage where
  cost : Int
  tokens : Nat
deriving DecidableEq

/-- The `finish-step` handler's message mutation (processor.ts lines
290–292): `finish` is replaced, `cost` is accumulated with `+=`, and
`tokens` is overwritten with the step's usage value. -/
def finishStep (msg : AssistantMessage) (finishReason : String) (u : Usage) : AssistantMessage :=
  { msg with finish := some finishReason, cost := msg.cost + u.cost, tokens := u.tokens }

/-- The turn's terminal outcome. -/
inductive TurnResult where
  | compact
  | stop
  | continueTurn
deriving DecidableEq

/-- The return-value chain of `process` (processor.ts lines 449–452). -/
def turnResult (needsCompaction blocked : Bool) (error : Option StreamError) : TurnResult :=
  if needsCompaction then .compact
  else if blocked then .stop
  else if error.isSome then .stop
  else .continueTurn

/-- The finalization sweep body (processor.ts lines 431–446): a tool part
whose status is neither `completed` nor `error` is forced into `error`
with message `"Tool execution aborted"` and `time.start = time.end = now`;
every other part is left untouched. -/
def sweepPart (now : Nat) (p : Part) : Part :=
  match p with
  | .tool id tool callID st =>
    match st with
    | .completed .. => p
    | .error .. => p
    | .pending input _ => .tool id tool callID (.error input "Tool execution aborted" now now)
    | .running input _ => .tool id tool callID (.error input "Tool execution aborted" now now)
  | _ => p

/-- The tail of `process` executed on every exit path (processor.ts lines
430–452): sweep all parts, stamp `time.completed`, persist the final
message, and compute the returned `TurnResult`. -/
def finishTurn (needsCompaction blocked : Bool) (parts : List Part)
    (msg : AssistantMessage) (now : Nat) : List Part × AssistantMessage × TurnResult :=
  let parts2 := parts.map (sweepPart now)
  let msg2 := { msg with timeCompleted := some now }
  (parts2, msg2, turnResult needsCompaction blocked msg2.error)

/-- One entry of the throttled-flush `accumulated` map (processor.ts line 61)
for a single part, extended with the observable effects of
`Session.updatePart`: `visible` is the part's last persisted full text and
`deltas` the log of delta arguments passed along. -/
structure BufState where
  chunks : List String
  flushed : Nat
  visible : String
  deltas : List String
deriving DecidableEq

/-- The empty buffer for a part before any fragment arrived; the part's
`text` starts as `""`. -/
def BufState.init : BufState := ⟨[], 0, "", []⟩

/-- `scheduleFlush` (processor.ts lines 64–71) restricted to its effect on
one part's entry: push the fragment onto `chunks`. -/
def appendDelta (st : BufState) (delta : String) : BufState :=
  { st with chunks := st.chunks ++ [delta] }

/-- The `flushAllDeltas` loop body for one entry (processor.ts lines
75–91): skip when nothing is unflushed, otherwise join the unflushed
suffix as the delta, advance `flushed` to the end, and persist the full
joined text as the part's current text. -/
def flushPart (st : BufState) : BufState :=
  if st.chunks.length ≤ st.flushed then st
  else
    { chunks := st.chunks
      flushed := st.chunks.length
      visible := String.join st.chunks
      deltas := st.deltas ++ [String.join (st.chunks.drop st.flushed)] }

/-- `finalizePart` (processor.ts lines 94–100): `undefined` when no entry /
no chunks, otherwise the join of all chunks (the entry is deleted). -/
def finalizePart (st : BufState) : Option String :=
  if st.chunks.length == 0 then none
  else some (String.join st.chunks)

/-- An interleaving of fragment arrivals and flush firings for one part. -/
inductive BufOp where
  | append (s : String)
  | flush
deriving DecidableEq

/-- Interpret one buffer operation. -/
def bufStep (st : BufState) : BufOp → BufState
  | .append s => appendDelta st s
  | .flush => flushPart st

/-- Run a whole interleaving from the empty buffer. -/
def runBuf (ops : List BufOp) : BufState :=
  ops.foldl bufStep BufState.init

/-- The fragments appended by an interleaving, in order. -/
def appendsOf (ops : List BufOp) : List String :=
  ops.filterMap fun op => match op with
    | .append s => some s
    | .flush => none

/-- The qualifying test of the doom-loop detector for one recent part
(processor.ts lines 197–201): a tool part naming the current call's tool,
past `pending`, with byte-identical serialized input. -/
def doomQual (toolName input : String) (p : Part) : Bool :=
  match p with
  | .tool _ t _ st => t == toolName && st.status != "pending" && st.input == input
  | _ => false

/-- The doom-loop detection predicate (processor.ts lines 191–203):
`parts.slice(-DOOM_LOOP_THRESHOLD)` must have exactly
`DOOM_LOOP_THRESHOLD` elements all passing `doomQual`. -/
def doomLoopCheck (parts : List Part) (toolName input : String) : Bool :=
  let lastThree := parts.drop (parts.length - DOOM_LOOP_THRESHOLD)
  lastThree.length == DOOM_LOOP_THRESHOLD && lastThree.all (doomQual toolName input)

/-- The spec-side reading of one qualifying part: a tool part naming the
same tool, already past `pending`, carrying byte-identical serialized
input. -/
def DoomLoopQualifies (toolName input : String) (p : Part) : Prop :=
  ∃ id callID st, p = Part.tool id toolName callID st ∧
    st.status ≠ "pending" ∧ st.input = input

/-- The ledger (`toolcalls` record, processor.ts line 33) together with the
log of parts handed to `Session.updatePart` and the `blocked` flag. -/
structure LedgerState where
  toolcalls : List (String × Part)
  persisted : List Part
  blocked : Bool
deriving DecidableEq

/-- `toolcalls[callID]` on the association-list model. -/
def lookupCall (tc : List (String × Part)) (callID : String) : Option Part :=
  (tc.find? fun e => e.1 == callID).map (·.2)

/-- `delete toolcalls[callID]`. -/
def eraseCall (tc : List (String × Part)) (callID : String) : List (String × Part) :=
  tc.filter fun e => e.1 != callID

/-- The `tool-result` case (processor.ts lines 220–242): only when the
ledger maps `callID` to a part in `running` state is the part completed,
persisted, and removed from the ledger; otherwise nothing happens. -/
def onToolResult (st : LedgerState) (callID : String) (input? : Option String)
    (output title : String) (now : Nat) : LedgerState :=
  match lookupCall st.toolcalls callID with
  | some (Part.tool pid tool cid (ToolState.running inp start)) =>
      let upd := Part.tool pid tool cid
        (ToolState.completed (input?.getD inp) output title start now)
      { st with
        persisted := st.persisted ++ [upd]
        toolcalls := eraseCall st.toolcalls callID }
  | _ => st

/-- The `tool-error` case (processor.ts lines 244–269): only when the
ledger maps `callID` to a `running` part is it transitioned to `error`
and persisted; an approval-rejection error sets `blocked = shouldBreak`. -/
def onToolError (st : LedgerState) (shouldBreak : Bool) (callID : String)
    (input? : Option String) (err : String) (isRejection : Bool) (now : Nat) : LedgerState :=
  match lookupCall st.toolcalls callID with
  | some (Part.tool pid tool cid (ToolState.running inp start)) =>
      { persisted := st.persisted ++
          [Part.tool pid tool cid (ToolState.error (input?.getD inp) err start now)]
        toolcalls := eraseCall st.toolcalls callID
        blocked := if isRejection then shouldBreak else st.blocked }
  | _ => st

/-- `SessionStatus.set` payloads the processor publishes. -/
inductive SessionStatusValue where
  | busy
  | retry (attempt : Nat) (message : String) (next : Nat)
  | idle
deriving DecidableEq

/-- The per-turn retry state: the single generic `attempt` counter
(processor.ts line 36), the published statuses, and the assistant
message. -/
structure RetryState where
  attempt : Nat
  statuses : List SessionStatusValue
  message : AssistantMessage
deriving DecidableEq

/-- The catch block of `process` (processor.ts lines 387–414): a failure
with a retry classification increments the one `attempt` counter and
publishes a `retry` status (the loop then continues); any other failure
records the error on the message, publishes `idle`, and falls through to
finalization.  The returned flag is whether the stream loop continues. -/
def handleStreamError (st : RetryState) (e : StreamError) (now delay : Nat) :
    RetryState × Bool :=
  match retryable e with
  | some m =>
      ({ attempt := st.attempt + 1
         statuses := st.statuses ++ [.retry (st.attempt + 1) m (now + delay)]
         message := st.message }, true)
  | none =>
      ({ attempt := st.attempt
         statuses := st.statuses ++ [.idle]
         message := { st.message with error := some e } }, false)

/-- Run the while-loop of `process` along a run in which every stream
attempt ends in the given failure: retryable failures loop, the first
non-retryable one finalizes the turn (with `needsCompaction = false`,
which holds on every exception path). -/
def runFailures (st : RetryState) (blocked : Bool) :
    List StreamError → RetryState × Option TurnResult
  | [] => (st, none)
  | e :: rest =>
    let (st2, cont) := handleStreamError st e 0 0
    if cont then runFailures st2 blocked rest
    else (st2, some (turnResult false blocked st2.message.error))

/-- The fields of a streamed text part the processor touches. -/
structure TextPart where
  id : String
  body : String
  timeStart : Nat
  timeEnd : Option Nat
deriving DecidableEq

/-- The `text-start` case (processor.ts lines 327–339): a fresh part with
empty text and `time.start = Date.now()`. -/
def textStartPart (id : String) (now : Nat) : TextPart :=
  { id := id, body := "", timeStart := now, timeEnd := none }

/-- The `text-end` case (processor.ts lines 348–369): take the finalized
buffer text when non-empty (`if (text)`), trim its end, run the
post-processing hook, and stamp `time = { start: now, end: now }` where
`now` is the finalization `Date.now()`. -/
def textEnd (p : TextPart) (finalized : Option String) (post : String → String)
    (now : Nat) : TextPart :=
  let body := match finalized with
    | some t => if t == "" then p.body else t
    | none => p.body
  { p with
    body := post body.trimRight
    timeStart := now
    timeEnd := some now }

/-- The fields of a streamed reasoning part the processor touches. -/
structure ReasoningPart where
  id : String
  body : String
  timeStart : Nat
  timeEnd : Option Nat
  metadata : Option String
deriving DecidableEq

/-- `reasoningMap[value.id]`. -/
def lookupReasoning (m : List (String × ReasoningPart)) (vid : String) : Option ReasoningPart :=
  (m.find? fun e => e.1 == vid).map (·.2)

/-- The `reasoning-start` case (processor.ts lines 109–124): if
`value.id in reasoningMap`, `continue` (no change at all); otherwise
register a fresh empty reasoning part under `value.id`. -/
def reasoningStart (m : List (String × ReasoningPart)) (vid freshID : String)
    (now : Nat) (meta : Option String) : List (String × ReasoningPart) :=
  if (m.find? fun e => e.1 == vid).isSome then m
  else m ++ [(vid, { id := freshID, body := "", timeStart := now, timeEnd := none, metadata := meta })]

/-- The error raised by the idle watchdog, as pinned by
test/session/stream-idle-timeout.test.ts: it carries the timeout in
milliseconds. -/
structure StreamIdleTimeoutError where
  timeoutMs : Nat
deriving DecidableEq

/-- The error's `message`, asserted verbatim by the test. -/
def StreamIdleTimeoutError.message (e : StreamIdleTimeoutError) : String :=
  idleTimeoutMessage e.timeoutMs

/-- Modelled from the spec: the idle watchdog `withIdleTimeout` itself is
not among the provided sources (only its error class's test is), so this
follows §4.1 of the spec.  A stream is a list of events paired with the
time gap since the previous event (or since start); the watchdog yields
the whole stream when every gap beats the current deadline, and fails
with a `StreamIdleTimeoutError` carrying the deadline at the first gap
that reaches it — the deadline timer is rearmed after every element.  A
deadline of zero disables the watchdog (pass-through). -/
def withIdleTimeout {α : Type} (deadline : Nat) (events : List (Nat × α)) :
    Except StreamIdleTimeoutError (List α) :=
  if deadline == 0 then .ok (events.map (·.2))
  else go events
where
  go : List (Nat × α) → Except StreamIdleTimeoutError (List α)
    | [] => .ok []
    | (gap, e) :: rest =>
      if deadline ≤ gap then .error ⟨deadline⟩
      else
        match go rest with
        | .ok es => .ok (e :: es)
        | .error err => .error err

/-- The invariant maintained by the flush buffer: the flushed count never
exceeds the chunk count, and the part's persisted text is the join of the
flushed prefix. -/
def BufInv (st : BufState) : Prop :=
  st.flushed ≤ st.chunks.length ∧ st.visible = String.join (st.chunks.take st.flushed)

/-! ## Theorems -/

theorem flushPart_chunks (st : BufState) : (flushPart st).chunks = st.chunks := by
  unfold flushPart
  split <;> rfl

theorem runBuf_chunks_aux (ops : List BufOp) :
    ∀ st : BufState, (ops.foldl bufStep st).chunks = st.chunks ++ appendsOf ops := by
  induction ops with
  | nil => intro st; simp [appendsOf]
  | cons op rest ih =>
    intro st
    cases op with
    | append s =>
      simp only [List.foldl_cons, ih, bufStep, appendDelta, appendsOf, List.filterMap_cons]
      simp [appendsOf]
    | flush =>
      simp only [List.foldl_cons, ih, bufStep, flushPart_chunks, appendsOf, List.filterMap_cons]

theorem runBuf_inv_aux (ops : List BufOp) :
    ∀ st : BufState, BufInv st → BufInv (ops.foldl bufStep st) := by
  induction ops with
  | nil => intro st h; exact h
  | cons op rest ih =>
    intro st h
    refine ih _ ?_
    obtain ⟨h1, h2⟩ := h
    cases op with
    | append s =>
      refine ⟨?_, ?_⟩
      · simp only [bufStep, appendDelta, List.length_append, List.length_cons]
        omega
      · simpa [bufStep, appendDelta, List.take_append_of_le_length h1] using h2
    | flush =>
      simp only [bufStep, flushPart]
      split
      · exact ⟨h1, h2⟩
      · exact ⟨Nat.le_refl _, by simp⟩

theorem runBuf_inv (ops : List BufOp) : BufInv (runBuf ops) :=
  runBuf_inv_aux ops BufState.init ⟨Nat.le_refl 0, rfl⟩

theorem runBuf_chunks (ops : List BufOp) : (runBuf ops).chunks = appendsOf ops := by
  simpa [runBuf, BufState.init] using runBuf_chunks_aux ops BufState.init

theorem flushPart_visible (st : BufState) (h : BufInv st) :
    (flushPart st).visible = String.join st.chunks := by
  obtain ⟨h1, h2⟩ := h
  unfold flushPart
  split
  · rename_i hle
    have : st.flushed = st.chunks.length := Nat.le_antisymm h1 hle
    rw [h2, this, List.take_length]
  · rfl

/-- Claim C3: for any ordered sequence of fragments appended for one part,
the text produced by `finalizePart` equals the exact concatenation of all
appended fragments in order, and the text visible after any flush equals
the join of all fragments appended up to that flush — no fragment is
skipped or duplicated across flush/finalize boundaries, regardless of
flush timing. -/
theorem flush_finalize_exact (ops : List BufOp) :
    finalizePart (runBuf ops)
      = (if appendsOf ops = [] then none else some (String.join (appendsOf ops)))
    ∧ (runBuf (ops ++ [BufOp.flush])).visible = String.join (appendsOf ops) := by
  constructor
  · unfold finalizePart
    rw [runBuf_chunks]
    rcases h : appendsOf ops with _ | ⟨a, rest⟩ <;> simp
  · have : runBuf (ops ++ [BufOp.flush]) = flushPart (runBuf ops) := by
      simp [runBuf, List.foldl_append, bufStep]
    rw [this, flushPart_visible _ (runBuf_inv ops), runBuf_chunks]

/-- Claim C6: on every exit path of a turn, finalization scans all parts and
forces every tool part whose state is not `completed` or `error` into
`error` ("Tool execution aborted") with start = end = now, leaves tool
parts already `completed`/`error` (and non-tool parts) untouched, then
stamps the message's completion time, the final message being the one
persisted alongside the returned result. -/
theorem finalization_sweep (nc b : Bool) (parts : List Part) (msg : AssistantMessage)
    (now : Nat) (id tname cid inp raw out title errS pid hash : String)
    (s f ts tok : Nat) (cost : Int) (te : Option Nat) (files : List String) :
    (finishTurn nc b parts msg now).1 = parts.map (sweepPart now)
    ∧ (finishTurn nc b parts msg now).2.1.timeCompleted = some now
    ∧ (finishTurn nc b parts msg now).2.2 = turnResult nc b msg.error
    ∧ sweepPart now (Part.tool id tname cid (ToolState.pending inp raw))
      = Part.tool id tname cid (ToolState.error inp "Tool execution aborted" now now)
    ∧ sweepPart now (Part.tool id tname cid (ToolState.running inp s))
      = Part.tool id tname cid (ToolState.error inp "Tool execution aborted" now now)
    ∧ sweepPart now (Part.tool id tname cid (ToolState.completed inp out title s f))
      = Part.tool id tname cid (ToolState.completed inp out title s f)
    ∧ sweepPart now (Part.tool id tname cid (ToolState.error inp errS s f))
      = Part.tool id tname cid (ToolState.error inp errS s f)
    ∧ sweepPart now (Part.text pid inp ts te) = Part.text pid inp ts te
    ∧ sweepPart now (Part.reasoning pid inp ts te) = Part.reasoning pid inp ts te
    ∧ sweepPart now (Part.stepStart pid hash) = Part.stepStart pid hash
    ∧ sweepPart now (Part.stepFinish pid tok cost) = Part.stepFinish pid tok cost
    ∧ sweepPart now (Part.patch pid hash files) = Part.patch pid hash files :=
  ⟨rfl, rfl, rfl, rfl, rfl, rfl, rfl, rfl, rfl, rfl, rfl, rfl⟩

/-- Claim C7: the turn's return value follows the precedence
`needsCompaction → compact`, else `blocked → stop`, else recorded
`error → stop`, else `continue`. -/
theorem turnResult_precedence (b : Bool) (err : Option StreamError) (e : StreamError) :
    turnResult true b err = TurnResult.compact
    ∧ turnResult false true err = TurnResult.stop
    ∧ turnResult false false (some e) = TurnResult.stop
    ∧ turnResult false false none = TurnResult.continueTurn :=
  ⟨rfl, rfl, rfl, rfl⟩

/-- Claim C9: when `text-end` finalizes a text part, `time.start` is
overwritten together with `time.end` to the finalization timestamp, so
the start time recorded at `text-start` is not preserved on the persisted
part. -/
theorem textEnd_overwrites_start (id : String) (t0 t1 : Nat) (finalized : Option String)
    (post : String → String) (h : t0 ≠ t1) :
    (textEnd (textStartPart id t0) finalized post t1).timeStart = t1
    ∧ (textEnd (textStartPart id t0) finalized post t1).timeEnd = some t1
    ∧ (textEnd (textStartPart id t0) finalized post t1).timeStart ≠ t0 := by
  refine ⟨rfl, rfl, ?_⟩
  simpa [textEnd, textStartPart] using fun hEq => h hEq.symm

/-- Witness for C9 at a concrete creation time 7 and finalization time 42. -/
theorem textEnd_overwrites_start_witness :
    (textEnd (textStartPart "p1" 7) (some "hello") String.trimRight 42).timeStart = 42
    ∧ (textEnd (textStartPart "p1" 7) (some "hello") String.trimRight 42).timeEnd = some 42
    ∧ (textEnd (textStartPart "p1" 7) (some "hello") String.trimRight 42).timeStart ≠ 7 :=
  textEnd_overwrites_start "p1" 7 42 (some "hello") String.trimRight (by decide)

/-- Claim C10: a `reasoning-start` event whose provider identifier is
already present in the reasoning map is ignored — no new reasoning part is
created and the map is unchanged, so `reasoning-start` is idempotent per
identifier within one stream attempt. -/
theorem reasoningStart_idempotent (m : List (String × ReasoningPart)) (vid f f2 : String)
    (now now2 : Nat) (meta meta2 : Option String)
    (h : (lookupReasoning m vid).isSome = true) :
    reasoningStart m vid f now meta = m
    ∧ reasoningStart (reasoningStart m vid f now meta) vid f2 now2 meta2
        = reasoningStart m vid f now meta := by
  have hfind : (m.find? fun e => e.1 == vid).isSome = true := by
    simpa [lookupReasoning] using h
  have h1 : reasoningStart m vid f now meta = m := by
    unfold reasoningStart
    rw [if_pos hfind]
  refine ⟨h1, ?_⟩
  rw [h1]
  unfold reasoningStart
  rw [if_pos hfind]

/-- Witness for C10: a map already holding provider id "r1" is unchanged. -/
theorem reasoningStart_idempotent_witness :
    reasoningStart [("r1", ⟨"p9", "thinking", 3, none, none⟩)] "r1" "p10" 5 none
      = [("r1", ⟨"p9", "thinking", 3, none, none⟩)]
    ∧ reasoningStart (reasoningStart [("r1", ⟨"p9", "thinking", 3, none, none⟩)] "r1" "p10" 5 none)
        "r1" "p11" 6 none
      = reasoningStart [("r1", ⟨"p9", "thinking", 3, none, none⟩)] "r1" "p10" 5 none :=
  reasoningStart_idempotent [("r1", ⟨"p9", "thinking", 3, none, none⟩)] "r1" "p10" "p11"
    5 6 none none (by decide)

/-- Claim C5: a `tool-result` or `tool-error` event whose call identifier
does not map to a ledger entry currently in the `running` state (unknown,
already completed, already errored) is a no-op: no part state changes,
nothing is persisted for it, and the turn's `blocked` flag is untouched. -/
theorem toolEvent_nonrunning_noop (st : LedgerState) (callID : String)
    (input? : Option String) (output title errS : String) (isRej shouldBreak : Bool)
    (now : Nat)
    (h : ∀ p, lookupCall st.toolcalls callID = some p → p.isRunningTool = false) :
    onToolResult st callID input? output title now = st
    ∧ onToolError st shouldBreak callID input? errS isRej now = st := by
  constructor
  · unfold onToolResult
    split
    · rename_i pid tname cid inp start heq
      have hp := h _ heq
      simp [Part.isRunningTool] at hp
    · rfl
  · unfold onToolError
    split
    · rename_i pid tname cid inp start heq
      have hp := h _ heq
      simp [Part.isRunningTool] at hp
    · rfl

/-- Witness for C5: a ledger whose only entry for "c1" is already
`completed`; both events leave the whole state unchanged. -/
theorem toolEvent_nonrunning_noop_witness :
    onToolResult ⟨[("c1", Part.tool "p1" "bash" "c1" (ToolState.completed "args" "out" "t" 1 2))],
        [], false⟩ "c1" none "out2" "t2" 5
      = ⟨[("c1", Part.tool "p1" "bash" "c1" (ToolState.completed "args" "out" "t" 1 2))], [], false⟩
    ∧ onToolError ⟨[("c1", Part.tool "p1" "bash" "c1" (ToolState.completed "args" "out" "t" 1 2))],
        [], false⟩ true "c1" none "boom" true 5
      = ⟨[("c1", Part.tool "p1" "bash" "c1" (ToolState.completed "args" "out" "t" 1 2))], [], false⟩ :=
  toolEvent_nonrunning_noop
    ⟨[("c1", Part.tool "p1" "bash" "c1" (ToolState.completed "args" "out" "t" 1 2))], [], false⟩
    "c1" none "out2" "t2" "boom" true true 5
    (fun p hp => by
      have hval : lookupCall
          [("c1", Part.tool "p1" "bash" "c1" (ToolState.completed "args" "out" "t" 1 2))] "c1"
          = some (Part.tool "p1" "bash" "c1" (ToolState.completed "args" "out" "t" 1 2)) := rfl
      rw [hval] at hp
      injection hp with hp
      subst hp
      rfl)

theorem doomQual_eq_true_iff (tn inp : String) (p : Part) :
    doomQual tn inp p = true ↔ DoomLoopQualifies tn inp p := by
  cases p with
  | tool id t cid st =>
    constructor
    · intro h
      simp only [doomQual, Bool.and_eq_true, beq_iff_eq, bne_iff_ne, ne_eq] at h
      exact ⟨id, cid, st, by rw [h.1.1], h.1.2, h.2⟩
    · rintro ⟨id', cid', st', heq, hstat, hinp⟩
      obtain ⟨rfl, rfl, rfl, rfl⟩ := Part.tool.injEq .. ▸ heq
      simp only [doomQual, Bool.and_eq_true, beq_iff_eq, bne_iff_ne, ne_eq]
      exact ⟨⟨by trivial, hstat⟩, hinp⟩
  | text a b c d => simp [doomQual, DoomLoopQualifies]
  | reasoning a b c d => simp [doomQual, DoomLoopQualifies]
  | stepStart a b => simp [doomQual, DoomLoopQualifies]
  | stepFinish a b c => simp [doomQual, DoomLoopQualifies]
  | patch a b c => simp [doomQual, DoomLoopQualifies]

/-- Claim C4: after a tool call transitions to `running`, the processor's
check over the most recent `DOOM_LOOP_THRESHOLD = 3` persisted parts
triggers the doom-loop approval request if and only if the message's
parts end in three parts that are all tool parts naming the same tool,
all already past `pending`, and all carrying byte-identical serialized
input; it never triggers when the message has fewer than three parts. -/
theorem doomLoop_characterization (parts : List Part) (tn inp : String) :
    (doomLoopCheck parts tn inp = true ↔
      ∃ front a b c, parts = front ++ [a, b, c]
        ∧ DoomLoopQualifies tn inp a
        ∧ DoomLoopQualifies tn inp b
        ∧ DoomLoopQualifies tn inp c)
    ∧ (parts.length < DOOM_LOOP_THRESHOLD → doomLoopCheck parts tn inp = false) := by
  have main : doomLoopCheck parts tn inp = true ↔
      ∃ front a b c, parts = front ++ [a, b, c]
        ∧ DoomLoopQualifies tn inp a
        ∧ DoomLoopQualifies tn inp b
        ∧ DoomLoopQualifies tn inp c := by
    unfold doomLoopCheck DOOM_LOOP_THRESHOLD
    simp only [Bool.and_eq_true, beq_iff_eq, List.all_eq_true]
    constructor
    · rintro ⟨hlen, hall⟩
      rw [List.length_drop] at hlen
      have hge : 3 ≤ parts.length := by omega
      have hlen3 : (parts.drop (parts.length - 3)).length = 3 := by
        rw [List.length_drop]; omega
      obtain ⟨a, b, c, habc⟩ := List.length_eq_three.mp hlen3
      refine ⟨parts.take (parts.length - 3), a, b, c, ?_, ?_, ?_, ?_⟩
      · rw [← habc, List.take_append_drop]
      · exact (doomQual_eq_true_iff tn inp a).mp (hall a (by rw [habc]; simp))
      · exact (doomQual_eq_true_iff tn inp b).mp (hall b (by rw [habc]; simp))
      · exact (doomQual_eq_true_iff tn inp c).mp (hall c (by rw [habc]; simp))
    · rintro ⟨front, a, b, c, rfl, ha, hb, hc⟩
      have hidx : (front ++ [a, b, c]).length - 3 = front.length := by
        simp [List.length_append]
      rw [hidx, List.drop_left]
      refine ⟨rfl, ?_⟩
      intro p hp
      simp only [List.mem_cons, List.not_mem_nil, or_false] at hp
      rcases hp with rfl | rfl | rfl
      · exact (doomQual_eq_true_iff tn inp p).mpr ha
      · exact (doomQual_eq_true_iff tn inp p).mpr hb
      · exact (doomQual_eq_true_iff tn inp p).mpr hc
  refine ⟨main, ?_⟩
  intro hlt
  cases hc : doomLoopCheck parts tn inp
  · rfl
  · exfalso
    obtain ⟨front, a, b, c, hparts, -, -, -⟩ := main.mp hc
    rw [hparts, List.length_append] at hlt
    simp [DOOM_LOOP_THRESHOLD] at hlt

/-- Witness for C4: two identical qualifying calls do not trigger the
detector. -/
theorem doomLoop_two_calls_no_trigger :
    doomLoopCheck
      [Part.tool "p1" "bash" "c1" (ToolState.running "cmd" 1),
       Part.tool "p2" "bash" "c2" (ToolState.running "cmd" 2)] "bash" "cmd" = false :=
  (doomLoop_characterization
    [Part.tool "p1" "bash" "c1" (ToolState.running "cmd" 1),
     Part.tool "p2" "bash" "c2" (ToolState.running "cmd" 2)] "bash" "cmd").2 (by decide)

/-- Counterexample to claim C1 as stated: four consecutive idle-timeout
stream failures each produce a `retry` status on the single generic
attempt counter; after the third one the next failure does NOT synthesize
a terminal error or stop the turn — the loop is still retrying with no
recorded error, so there is no separate `idleTimeoutRetries` counter with
cap 3. -/
theorem idleTimeout_no_cap_counterexample :
    (runFailures ⟨0, [], ⟨none, 0, 0, none, none⟩⟩ false
        (List.replicate 4 (StreamError.idleTimeout 60000))).2 = none
    ∧ (runFailures ⟨0, [], ⟨none, 0, 0, none, none⟩⟩ false
        (List.replicate 4 (StreamError.idleTimeout 60000))).1.message.error = none
    ∧ (runFailures ⟨0, [], ⟨none, 0, 0, none, none⟩⟩ false
        (List.replicate 4 (StreamError.idleTimeout 60000))).1.attempt = 4
    ∧ (runFailures ⟨0, [], ⟨none, 0, 0, none, none⟩⟩ false
        (List.replicate 4 (StreamError.idleTimeout 60000))).1.statuses
      = [SessionStatusValue.retry 1 (idleTimeoutMessage 60000) 0,
         SessionStatusValue.retry 2 (idleTimeoutMessage 60000) 0,
         SessionStatusValue.retry 3 (idleTimeoutMessage 60000) 0,
         SessionStatusValue.retry 4 (idleTimeoutMessage 60000) 0] :=
  ⟨rfl, rfl, rfl, rfl⟩

/-- Claim C1 (amended): the retry policy keeps a single generic `attempt`
counter per turn; an idle-timeout stream failure is classified retryable
and, like any other retryable failure, increments that one counter and
publishes a `retry` status — there is no idle-timeout-specific cap and no
synthesized terminal error for repeated idle timeouts; only a failure
classified non-retryable records a terminal error on the message,
publishes `idle`, and ends the stream loop. -/
theorem single_counter_retry_policy (st : RetryState) (ms now delay : Nat)
    (e : StreamError) (h : retryable e = none) :
    handleStreamError st (StreamError.idleTimeout ms) now delay
      = ({ attempt := st.attempt + 1
           statuses := st.statuses
             ++ [SessionStatusValue.retry (st.attempt + 1) (idleTimeoutMessage ms) (now + delay)]
           message := st.message }, true)
    ∧ handleStreamError st e now delay
      = ({ attempt := st.attempt
           statuses := st.statuses ++ [SessionStatusValue.idle]
           message := { st.message with error := some e } }, false) := by
  refine ⟨rfl, ?_⟩
  unfold handleStreamError
  rw [h]

/-- Witness for amended C1 at a concrete state and errors. -/
theorem single_counter_retry_policy_witness :
    handleStreamError ⟨2, [], ⟨none, 0, 0, none, none⟩⟩ (StreamError.idleTimeout 60000) 10 5
      = (⟨3, [SessionStatusValue.retry 3 (idleTimeoutMessage 60000) 15],
          ⟨none, 0, 0, none, none⟩⟩, true)
    ∧ handleStreamError ⟨2, [], ⟨none, 0, 0, none, none⟩⟩ (StreamError.other none "auth failed") 10 5
      = (⟨2, [SessionStatusValue.idle],
          ⟨none, 0, 0, some (StreamError.other none "auth failed"), none⟩⟩, false) :=
  single_counter_retry_policy ⟨2, [], ⟨none, 0, 0, none, none⟩⟩ 60000 10 5
    (StreamError.other none "auth failed") rfl

/-- Counterexample to claim C2 as stated: `tokens` is overwritten (not
accumulated) at each `finish-step`, so a step reporting lower usage makes
the message's `tokens` decrease within the turn. -/
theorem tokens_not_monotone_counterexample :
    (finishStep (finishStep ⟨none, 0, 0, none, none⟩ "tool-calls" ⟨0, 100⟩) "stop" ⟨0, 50⟩).tokens
      < (finishStep ⟨none, 0, 0, none, none⟩ "tool-calls" ⟨0, 100⟩).tokens := by
  decide

/-- Claim C2 (amended): within a turn, the assistant message's `cost` is
monotonically non-decreasing across `finish-step` events (each step adds
its non-negative step cost), while `tokens` is overwritten with each
step's reported usage and need not be non-decreasing; the `error` field
is untouched by every retrying failure and set exactly on the terminal
failure, after which the stream loop ends and the turn's result is
`stop`. -/
theorem message_accumulation_and_terminal_error (msg : AssistantMessage) (r : String)
    (u : Usage) (st : RetryState) (e : StreamError) (b : Bool) (now delay : Nat)
    (hc : 0 ≤ u.cost) :
    msg.cost ≤ (finishStep msg r u).cost
    ∧ (finishStep msg r u).tokens = u.tokens
    ∧ (∀ m, retryable e = some m →
        (handleStreamError st e now delay).1.message = st.message
        ∧ (handleStreamError st e now delay).2 = true)
    ∧ (retryable e = none →
        (handleStreamError st e now delay).1.message.error = some e
        ∧ (handleStreamError st e now delay).2 = false
        ∧ turnResult false b (some e) = TurnResult.stop) := by
  refine ⟨le_add_of_nonneg_right hc, rfl, ?_, ?_⟩
  · intro m hm
    unfold handleStreamError
    rw [hm]
    exact ⟨rfl, rfl⟩
  · intro hn
    unfold handleStreamError
    rw [hn]
    refine ⟨rfl, rfl, ?_⟩
    cases b <;> rfl

/-- Witness for amended C2 at a concrete message, step usage, and terminal
error. -/
theorem message_accumulation_and_terminal_error_witness :
    (⟨none, 3, 0, none, none⟩ : AssistantMessage).cost
        ≤ (finishStep ⟨none, 3, 0, none, none⟩ "stop" ⟨2, 40⟩).cost
    ∧ (finishStep ⟨none, 3, 0, none, none⟩ "stop" ⟨2, 40⟩).tokens = 40
    ∧ (∀ m, retryable (StreamError.other none "bad request") = some m →
        (handleStreamError ⟨1, [], ⟨none, 3, 0, none, none⟩⟩
            (StreamError.other none "bad request") 0 0).1.message
          = (⟨1, [], ⟨none, 3, 0, none, none⟩⟩ : RetryState).message
        ∧ (handleStreamError ⟨1, [], ⟨none, 3, 0, none, none⟩⟩
            (StreamError.other none "bad request") 0 0).2 = true)
    ∧ (retryable (StreamError.other none "bad request") = none →
        (handleStreamError ⟨1, [], ⟨none, 3, 0, none, none⟩⟩
            (StreamError.other none "bad request") 0 0).1.message.error
          = some (StreamError.other none "bad request")
        ∧ (handleStreamError ⟨1, [], ⟨none, 3, 0, none, none⟩⟩
            (StreamError.other none "bad request") 0 0).2 = false
        ∧ turnResult false true (some (StreamError.other none "bad request"))
          = TurnResult.stop) :=
  message_accumulation_and_terminal_error ⟨none, 3, 0, none, none⟩ "stop" ⟨2, 40⟩
    ⟨1, [], ⟨none, 3, 0, none, none⟩⟩ (StreamError.other none "bad request") true 0 0
    (by decide)

theorem withIdleTimeout_go_ok {α : Type} (d : Nat) (l : List (Nat × α))
    (h : ∀ p ∈ l, p.1 < d) :
    withIdleTimeout.go d l = Except.ok (l.map (·.2)) := by
  induction l with
  | nil => rfl
  | cons p rest ih =>
    obtain ⟨gap, e⟩ := p
    have hgap : gap < d := h (gap, e) (List.mem_cons_self _ _)
    have hrest := ih fun q hq => h q (List.mem_cons_of_mem _ hq)
    unfold withIdleTimeout.go
    rw [if_neg (by omega), hrest]
    rfl

theorem withIdleTimeout_go_error {α : Type} (d gap : Nat) (e : α)
    (pre rest : List (Nat × α)) (hpre : ∀ p ∈ pre, p.1 < d) (hgap : d ≤ gap) :
    withIdleTimeout.go d (pre ++ (gap, e) :: rest) = Except.error ⟨d⟩ := by
  induction pre with
  | nil =>
    unfold withIdleTimeout.go
    rw [List.nil_append]
    simp only [if_pos hgap]
  | cons q pre' ih =>
    obtain ⟨g0, e0⟩ := q
    have hg0 : g0 < d := hpre (g0, e0) (List.mem_cons_self _ _)
    have hrec := ih fun p hp => hpre p (List.mem_cons_of_mem _ hp)
    rw [List.cons_append]
    unfold withIdleTimeout.go
    rw [if_neg (by omega), hrec]

/-- Claim C8: the idle watchdog wraps the event sequence so that if no
element arrives within the current (positive) deadline after the previous
element (or after start), the wrapped sequence fails with a
`StreamIdleTimeoutError` carrying that deadline value; if every element
arrives before the deadline, no timeout fires — the deadline resets after
each element — and the wrapped sequence is the source sequence. -/
theorem withIdleTimeout_spec {α : Type} (d : Nat) (evs : List (Nat × α)) (hd : 0 < d) :
    ((∀ p ∈ evs, p.1 < d) → withIdleTimeout d evs = Except.ok (evs.map (·.2)))
    ∧ (∀ pre gap e rest, evs = pre ++ (gap, e) :: rest →
        (∀ p ∈ pre, p.1 < d) → d ≤ gap →
        withIdleTimeout d evs = Except.error ⟨d⟩) := by
  have hne : (d == 0) = false := by
    cases d
    · omega
    · rfl
  constructor
  · intro h
    unfold withIdleTimeout
    rw [hne]
    simp only [Bool.false_eq_true, if_false]
    exact withIdleTimeout_go_ok d evs h
  · intro pre gap e rest hsplit hpre hgap
    unfold withIdleTimeout
    rw [hne]
    simp only [Bool.false_eq_true, if_false]
    rw [hsplit]
    exact withIdleTimeout_go_error d gap e pre rest hpre hgap

/-- Witness for C8 with deadline 10: gaps 3 and 4 pass every event through;
a gap of 12 after one timely event fails with the deadline value. -/
theorem withIdleTimeout_spec_witness :
    withIdleTimeout 10 [(3, 1), (4, 2)] = Except.ok [1, 2]
    ∧ withIdleTimeout 10 [(3, 1), (12, 2)] = Except.error ⟨10⟩ :=
  ⟨(withIdleTimeout_spec 10 [(3, (1 : Nat)), (4, 2)] (by decide)).1 (by decide),
   (withIdleTimeout_spec 10 [(3, (1 : Nat)), (12, 2)] (by decide)).2 [(3, 1)] 12 2 [] rfl
     (by decide) (by decide)⟩

end SessionProcessor
